import Mathlib

/-!
Verification of the `ankidecker` definition-fetching layer (`src/main.py`).

The embedding models:
- the Python `dict` used as the in-memory cache as an insertion-ordered
  association list with unique keys (`dictPut` replaces in place, as Python
  dict assignment does);
- the backing JSON cache file as an optional list of key/value pairs
  (`none` = file absent); `json.dump` of a dict writes its pairs in
  insertion order, `json.load` rebuilds a dict from the pairs (later
  duplicate keys overwrite, as in Python);
- `DeepInfraFetcher`'s mutable state (`self.cache`, `self._dirty`,
  `self._last_save_timestamp`) plus the backing-file content and a count of
  write operations performed on it, as the structure `FS`;
- `time.time()` readings as integer time units passed in explicitly (the
  two consecutive readings inside `fetch` are modelled as one instant);
- the HTTP endpoint as an oracle `String → Response` giving, per term,
  either the extracted message content of a 200 response or the error text
  of a non-200 response;
- `markdown2.markdown` as an explicit deterministic rendering function
  `md : String → String` passed as a parameter.
-/

namespace AnkiDecker

/-- One Python dict entry: term key and raw definition text. -/
abbrev Entry := String × String

/-- Python `dict` lookup (`self.cache[term]` / `term in self.cache`):
first (and, with unique keys, only) binding of the key. -/
def dictLookup : List Entry → String → Option String
  | [], _ => none
  | (k, v) :: rest, key => if k = key then some v else dictLookup rest key

/-- Python `dict` assignment `d[key] = val`: replaces the value in place if
the key is present, otherwise appends the new binding. -/
def dictPut : List Entry → String → String → List Entry
  | [], key, val => [(key, val)]
  | (k, v) :: rest, key, val =>
    if k = key then (k, val) :: rest else (k, v) :: dictPut rest key val

/-- The key sequence of a dict. -/
def dictKeys (d : List Entry) : List String := d.map Prod.fst

/-- `json.dump` of a dict: its key/value pairs in insertion order. -/
def jsonDump (d : List Entry) : List Entry := d

/-- `json.load`: rebuild a dict from the serialized pairs; a later duplicate
key overwrites the earlier value (Python object semantics). -/
def jsonLoad (pairs : List Entry) : List Entry :=
  pairs.foldl (fun d kv => dictPut d kv.1 kv.2) []

/-- Characters stripped by Python `str.strip()` (ASCII whitespace). -/
def isPySpace (c : Char) : Bool :=
  c = ' ' || c = '\t' || c = '\n' || c = '\x0b' || c = '\x0c' || c = '\r'

/-- Python `s.strip()`: remove leading and trailing whitespace. -/
def pyStrip (s : String) : String :=
  String.mk (((s.data.dropWhile isPySpace).reverse.dropWhile isPySpace).reverse)

/- ### Basic dict lemmas -/

@[simp]
theorem dictKeys_nil : dictKeys [] = [] := rfl

@[simp]
theorem dictKeys_cons (k v : String) (tl : List Entry) :
    dictKeys ((k, v) :: tl) = k :: dictKeys tl := rfl

theorem dictLookup_dictPut_self (d : List Entry) (k v : String) :
    dictLookup (dictPut d k v) k = some v := by
  induction d with
  | nil => simp [dictPut, dictLookup]
  | cons hd tl ih =>
    obtain ⟨k', v'⟩ := hd
    by_cases h : k' = k
    · simp [dictPut, dictLookup, h]
    · simp [dictPut, dictLookup, h, ih]

theorem dictLookup_dictPut_ne (d : List Entry) (k v k' : String) (h : k' ≠ k) :
    dictLookup (dictPut d k v) k' = dictLookup d k' := by
  have hk : k ≠ k' := Ne.symm h
  induction d with
  | nil => simp [dictPut, dictLookup, hk]
  | cons hd tl ih =>
    obtain ⟨k₀, v₀⟩ := hd
    by_cases h₀ : k₀ = k
    · subst h₀
      simp [dictPut, dictLookup, hk]
    · simp [dictPut, dictLookup, h₀, ih]

theorem dictLookup_eq_none_iff (d : List Entry) (k : String) :
    dictLookup d k = none ↔ k ∉ dictKeys d := by
  induction d with
  | nil => simp [dictLookup]
  | cons hd tl ih =>
    obtain ⟨k₀, v₀⟩ := hd
    by_cases h : k₀ = k
    · subst h; simp [dictLookup]
    · have h' : k ≠ k₀ := Ne.symm h
      simp [dictLookup, h, h', ih]

theorem dictKeys_dictPut_mem (d : List Entry) (k v : String) (h : k ∈ dictKeys d) :
    dictKeys (dictPut d k v) = dictKeys d := by
  induction d with
  | nil => simp at h
  | cons hd tl ih =>
    obtain ⟨k₀, v₀⟩ := hd
    by_cases h₀ : k₀ = k
    · simp [dictPut, h₀]
    · have h' : ¬k = k₀ := fun hh => h₀ hh.symm
      have hmem : k ∈ dictKeys tl := by simpa [h'] using h
      simp [dictPut, h₀, ih hmem]

theorem dictKeys_dictPut_not_mem (d : List Entry) (k v : String) (h : k ∉ dictKeys d) :
    dictKeys (dictPut d k v) = dictKeys d ++ [k] := by
  induction d with
  | nil => simp [dictPut]
  | cons hd tl ih =>
    obtain ⟨k₀, v₀⟩ := hd
    simp at h
    have h₀ : ¬k₀ = k := fun hh => h.1 hh.symm
    simp [dictPut, h₀, ih h.2]

theorem dictKeys_nodup_dictPut (d : List Entry) (k v : String)
    (h : (dictKeys d).Nodup) : (dictKeys (dictPut d k v)).Nodup := by
  by_cases hm : k ∈ dictKeys d
  · rwa [dictKeys_dictPut_mem d k v hm]
  · rw [dictKeys_dictPut_not_mem d k v hm]
    simpa [List.nodup_append] using ⟨h, fun hh => hm hh⟩

theorem dictPut_eq_append (d : List Entry) (k v : String) (h : k ∉ dictKeys d) :
    dictPut d k v = d ++ [(k, v)] := by
  induction d with
  | nil => simp [dictPut]
  | cons hd tl ih =>
    obtain ⟨k₀, v₀⟩ := hd
    simp at h
    have h₀ : ¬k₀ = k := fun hh => h.1 hh.symm
    simp [dictPut, h₀, ih h.2]

/- ### JSON round trip -/

theorem jsonLoad_foldl_fresh (pairs acc : List Entry)
    (h : (dictKeys (acc ++ pairs)).Nodup) :
    pairs.foldl (fun d kv => dictPut d kv.1 kv.2) acc = acc ++ pairs := by
  induction pairs generalizing acc with
  | nil => simp
  | cons hd tl ih =>
    obtain ⟨k, v⟩ := hd
    have hk : k ∉ dictKeys acc := by
      intro hmem
      have hsplit : (dictKeys acc ++ dictKeys ((k, v) :: tl)).Nodup := by
        simpa [dictKeys, List.map_append] using h
      rw [List.nodup_append] at hsplit
      exact hsplit.2.2 hmem (by simp)
    have hput : dictPut acc k v = acc ++ [(k, v)] :=
      dictPut_eq_append acc k v hk
    have hre : (acc ++ [(k, v)]) ++ tl = acc ++ (k, v) :: tl := by simp
    have := ih (acc ++ [(k, v)]) (by rw [hre]; exact h)
    simpa [List.foldl_cons, hput, hre] using this

theorem jsonLoad_jsonDump (d : List Entry) (h : (dictKeys d).Nodup) :
    jsonLoad (jsonDump d) = d := by
  simpa [jsonLoad, jsonDump] using jsonLoad_foldl_fresh d [] (by simpa using h)

theorem jsonLoad_nodup (pairs : List Entry) :
    (dictKeys (jsonLoad pairs)).Nodup := by
  suffices hgen : ∀ acc : List Entry, (dictKeys acc).Nodup →
      (dictKeys (pairs.foldl (fun d kv => dictPut d kv.1 kv.2) acc)).Nodup by
    exact hgen [] (by simp)
  induction pairs with
  | nil => intro acc hacc; simpa using hacc
  | cons hd tl ih =>
    intro acc hacc
    exact ih (dictPut acc hd.1 hd.2) (dictKeys_nodup_dictPut acc hd.1 hd.2 hacc)

/- ### Fetcher state (`DeepInfraFetcher`) -/

/-- The remote endpoint's answer for one POST: either the extracted message
content of a 200 response (`result["choices"][0]["message"]["content"]`,
before `.strip()`), or the `response.text` of a non-200 response. -/
inductive Response where
  | success (content : String)
  | failure (text : String)
deriving Repr, DecidableEq

/-- `DeepInfraFetcher`'s mutable state together with the backing file.
`fileContent` is the cache file parsed as key/value pairs (`none` = absent);
`writeCount` counts the write operations performed on the file. -/
structure FS where
  cache : List Entry
  dirty : Bool
  lastSave : Int
  fileContent : Option (List Entry)
  writeCount : Nat
deriving Repr, DecidableEq

/-- `_load_cache`: parse the backing file if it exists, else empty dict. -/
def loadCache (file : Option (List Entry)) : List Entry :=
  match file with
  | some pairs => jsonLoad pairs
  | none => []

/-- `__init__` (lines 65-68): load the cache, clear the dirty flag, record
the current time as the last-save timestamp. -/
def initFetcher (file : Option (List Entry)) (now : Int) : FS :=
  { cache := loadCache file
    dirty := false
    lastSave := now
    fileContent := file
    writeCount := 0 }

/-- `self._save_interval = 15` (line 68). -/
def saveInterval : Int := 15

/-- `_save_cache` (lines 82-85): if dirty, dump the whole in-memory mapping
to the backing file. The dirty flag is not modified. -/
def saveCache (s : FS) : FS :=
  if s.dirty then
    { s with fileContent := some (jsonDump s.cache), writeCount := s.writeCount + 1 }
  else s

/-- Lines 120-121 of `fetch`: `self.cache[term] = definition` followed by
`self._dirty = True` (the Cache Store's `put`). -/
def putCache (s : FS) (term definition : String) : FS :=
  { s with cache := dictPut s.cache term definition, dirty := true }

deriving instance DecidableEq for Except

/-- The result of one `fetch` call: the state after the call, the returned
pair or the raised exception's message, and whether an HTTP request was
issued. -/
structure FetchResult where
  state : FS
  outcome : Except String (String × Bool)
  requested : Bool
deriving Repr, DecidableEq

/-- `fetch` (lines 87-128). `md` is `markdown2.markdown`; `resp` is the
endpoint's behaviour per term; `now` is the `time.time()` reading (the two
consecutive readings around `_save_cache` are modelled as the same instant).
On a cache hit, re-render the stored raw text and return it with `True`.
On a miss, POST to the endpoint; on status 200 strip the content, store it,
opportunistically save if more than `saveInterval` has elapsed since the
last save timestamp, and return the rendered text with `False`; otherwise
raise. -/
def fetch (md : String → String) (s : FS) (term : String)
    (resp : String → Response) (now : Int) : FetchResult :=
  match dictLookup s.cache term with
  | some raw => { state := s, outcome := .ok (md raw, true), requested := false }
  | none =>
    match resp term with
    | .success content =>
      let definition := pyStrip content
      let s1 := putCache s term definition
      let htmlDef := md definition
      let s2 :=
        if now - s.lastSave > saveInterval then
          { saveCache s1 with lastSave := now }
        else s1
      { state := s2, outcome := .ok (htmlDef, false), requested := true }
    | .failure text =>
      { state := s
        outcome := .error ("Error fetching definition for " ++ term ++ ": " ++ text)
        requested := true }

/-- `close` (lines 130-131): save the cache (subject to the dirty check,
ignoring the save interval). -/
def close (s : FS) : FS := saveCache s

/- ### Pipeline (`generate_output`, `load_terms`, scoped use) -/

/-- Outcome of driving the fetcher over a term list: the `(term, definition)`
pairs accumulated for the successful prefix, the fetcher state reached, and
the first raised error, if any. -/
structure RunResult where
  pairs : List Entry
  state : FS
  error : Option String
deriving Repr, DecidableEq

/-- The fetch loop of `generate_output` (lines 196-202): fetch each term in
order, appending `(term, definition)`; an exception aborts the loop and
propagates. `times` supplies the `time.time()` reading for each call. -/
def runFetchAll (md : String → String) (resp : String → Response) (s : FS)
    (times : Nat → Int) : List String → RunResult
  | [] => { pairs := [], state := s, error := none }
  | t :: ts =>
    let r := fetch md s t resp (times 0)
    match r.outcome with
    | .error e => { pairs := [], state := r.state, error := some e }
    | .ok (defn, _fromCache) =>
      let rest := runFetchAll md resp r.state (fun i => times (i + 1)) ts
      { rest with pairs := (t, defn) :: rest.pairs }

/-- A full `generate_output` run (lines 188-203): `sinkCalls` lists the
invocations of `output_strategy.output` (one per call, carrying the sequence
passed); the sink is invoked once, after the loop, only when no exception
propagated. -/
structure PipelineResult where
  sinkCalls : List (List Entry)
  fetched : List Entry
  state : FS
  error : Option String
deriving Repr, DecidableEq

/-- `generate_output` (lines 188-203). -/
def generateOutput (md : String → String) (resp : String → Response) (s : FS)
    (terms : List String) (times : Nat → Int) : PipelineResult :=
  let r := runFetchAll md resp s times terms
  { sinkCalls := match r.error with | none => [r.pairs] | some _ => []
    fetched := r.pairs
    state := r.state
    error := r.error }

/-- The `with get_fetcher() as fetcher:` block of `main` (lines 274-277)
restricted to the fetch pipeline: construct the fetcher, run
`generate_output`, and on scope exit — normal or exceptional — invoke
`close` via `__exit__` (lines 73-74), which does not suppress the error. -/
def runScoped (md : String → String) (resp : String → Response)
    (file : Option (List Entry)) (now0 : Int)
    (terms : List String) (times : Nat → Int) : PipelineResult :=
  let p := generateOutput md resp (initFetcher file now0) terms times
  { p with state := close p.state }

/-- `load_terms` (lines 183-185): the file's lines, each stripped, keeping
those that are non-empty after stripping. -/
def load_terms (lines : List String) : List String :=
  lines.filterMap (fun line => if pyStrip line = "" then none else some (pyStrip line))

/- ### Case lemmas for `fetch` -/

theorem fetch_hit (md : String → String) (s : FS) (term : String)
    (resp : String → Response) (now : Int) (raw : String)
    (h : dictLookup s.cache term = some raw) :
    fetch md s term resp now =
      { state := s, outcome := .ok (md raw, true), requested := false } := by
  simp [fetch, h]

theorem fetch_miss_fail (md : String → String) (s : FS) (term : String)
    (resp : String → Response) (now : Int) (text : String)
    (h : dictLookup s.cache term = none) (hr : resp term = .failure text) :
    fetch md s term resp now =
      { state := s
        outcome := .error ("Error fetching definition for " ++ term ++ ": " ++ text)
        requested := true } := by
  simp [fetch, h, hr]

theorem fetch_miss_ok (md : String → String) (s : FS) (term : String)
    (resp : String → Response) (now : Int) (content : String)
    (h : dictLookup s.cache term = none) (hr : resp term = .success content) :
    fetch md s term resp now =
      { state :=
          if now - s.lastSave > saveInterval then
            { saveCache (putCache s term (pyStrip content)) with lastSave := now }
          else putCache s term (pyStrip content)
        outcome := .ok (md (pyStrip content), false)
        requested := true } := by
  simp [fetch, h, hr]

theorem saveCache_of_dirty (s : FS) (h : s.dirty = true) :
    saveCache s =
      { s with fileContent := some (jsonDump s.cache), writeCount := s.writeCount + 1 } := by
  simp [saveCache, h]

theorem saveCache_of_clean (s : FS) (h : s.dirty = false) : saveCache s = s := by
  simp [saveCache, h]

theorem saveCache_cache (s : FS) : (saveCache s).cache = s.cache := by
  by_cases h : s.dirty = true
  · rw [saveCache_of_dirty s h]
  · rw [saveCache_of_clean s (by simpa using h)]

theorem saveCache_dirty (s : FS) : (saveCache s).dirty = s.dirty := by
  by_cases h : s.dirty = true
  · rw [saveCache_of_dirty s h]
  · rw [saveCache_of_clean s (by simpa using h)]

theorem fetch_cache_lookup_mono (md : String → String) (s : FS) (term : String)
    (resp : String → Response) (now : Int) (k v : String)
    (h : dictLookup s.cache k = some v) :
    dictLookup (fetch md s term resp now).state.cache k = some v := by
  cases hc : dictLookup s.cache term with
  | some raw => rw [fetch_hit md s term resp now raw hc]; exact h
  | none =>
    cases hr : resp term with
    | failure text => rw [fetch_miss_fail md s term resp now text hc hr]; exact h
    | success content =>
      rw [fetch_miss_ok md s term resp now content hc hr]
      have hk : k ≠ term := by rintro rfl; rw [h] at hc; cases hc
      by_cases ht : now - s.lastSave > saveInterval
      · simpa [ht, saveCache_cache, putCache, dictLookup_dictPut_ne _ _ _ _ hk] using h
      · simpa [ht, putCache, dictLookup_dictPut_ne _ _ _ _ hk] using h

theorem fetch_dirty_mono (md : String → String) (s : FS) (term : String)
    (resp : String → Response) (now : Int) (h : s.dirty = true) :
    (fetch md s term resp now).state.dirty = true := by
  cases hc : dictLookup s.cache term with
  | some raw => rw [fetch_hit md s term resp now raw hc]; exact h
  | none =>
    cases hr : resp term with
    | failure text => rw [fetch_miss_fail md s term resp now text hc hr]; exact h
    | success content =>
      rw [fetch_miss_ok md s term resp now content hc hr]
      by_cases ht : now - s.lastSave > saveInterval
      · simp [ht, saveCache_dirty, putCache]
      · simp [ht, putCache]

theorem fetch_ok_lookup (md : String → String) (s : FS) (term : String)
    (resp : String → Response) (now : Int) (d : String) (b : Bool)
    (h : (fetch md s term resp now).outcome = .ok (d, b)) :
    ∃ v, dictLookup (fetch md s term resp now).state.cache term = some v ∧ d = md v := by
  cases hc : dictLookup s.cache term with
  | some raw =>
    rw [fetch_hit md s term resp now raw hc] at h ⊢
    simp at h
    exact ⟨raw, hc, h.1.symm⟩
  | none =>
    cases hr : resp term with
    | failure text =>
      rw [fetch_miss_fail md s term resp now text hc hr] at h
      simp at h
    | success content =>
      rw [fetch_miss_ok md s term resp now content hc hr] at h ⊢
      simp at h
      refine ⟨pyStrip content, ?_, h.1.symm⟩
      by_cases ht : now - s.lastSave > saveInterval
      · simp [ht, saveCache_cache, putCache, dictLookup_dictPut_self]
      · simp [ht, putCache, dictLookup_dictPut_self]

theorem fetch_error_state (md : String → String) (s : FS) (term : String)
    (resp : String → Response) (now : Int) (e : String)
    (h : (fetch md s term resp now).outcome = .error e) :
    (fetch md s term resp now).state = s := by
  cases hc : dictLookup s.cache term with
  | some raw => rw [fetch_hit md s term resp now raw hc]
  | none =>
    cases hr : resp term with
    | failure text => rw [fetch_miss_fail md s term resp now text hc hr]
    | success content =>
      rw [fetch_miss_ok md s term resp now content hc hr] at h
      simp at h

/- ### The fetcher invariant -/

/-- The state invariant maintained by every fetcher operation: the in-memory
dict has unique keys, the parsed backing file is contained in the in-memory
mapping, and a clean state's in-memory mapping equals the parsed file. -/
structure Inv (s : FS) : Prop where
  nodup : (dictKeys s.cache).Nodup
  disk_le : ∀ t v, dictLookup (loadCache s.fileContent) t = some v →
    dictLookup s.cache t = some v
  clean_eq : s.dirty = false → s.cache = loadCache s.fileContent

theorem Inv_init (file : Option (List Entry)) (now : Int) :
    Inv (initFetcher file now) := by
  refine ⟨?_, ?_, ?_⟩
  · cases file with
    | none => simp [initFetcher, loadCache]
    | some pairs => simpa [initFetcher, loadCache] using jsonLoad_nodup pairs
  · intro t v h; simpa [initFetcher] using h
  · intro _; rfl

theorem loadCache_saveCache_dirty (s : FS) (hn : (dictKeys s.cache).Nodup)
    (h : s.dirty = true) :
    loadCache (saveCache s).fileContent = s.cache := by
  rw [saveCache_of_dirty s h]
  simpa [loadCache] using jsonLoad_jsonDump s.cache hn

theorem Inv_saveCache (s : FS) (hs : Inv s) : Inv (saveCache s) := by
  by_cases h : s.dirty = true
  · refine ⟨?_, ?_, ?_⟩
    · simpa [saveCache_cache] using hs.nodup
    · intro t v hv
      rw [saveCache_cache]
      rwa [loadCache_saveCache_dirty s hs.nodup h] at hv
    · intro hclean
      rw [saveCache_dirty] at hclean
      rw [hclean] at h
      cases h
  · rw [saveCache_of_clean s (by simpa using h)]
    exact hs

theorem saveCache_disk_eq (s : FS) (hs : Inv s) (t : String) :
    dictLookup (saveCache s).cache t = dictLookup (loadCache (saveCache s).fileContent) t := by
  by_cases h : s.dirty = true
  · rw [saveCache_cache, loadCache_saveCache_dirty s hs.nodup h]
  · rw [saveCache_of_clean s (by simpa using h)]
    rw [hs.clean_eq (by simpa using h)]

theorem saveCache_disk_mono (s : FS) (hs : Inv s) (t v : String)
    (h : dictLookup (loadCache s.fileContent) t = some v) :
    dictLookup (loadCache (saveCache s).fileContent) t = some v := by
  by_cases hd : s.dirty = true
  · rw [loadCache_saveCache_dirty s hs.nodup hd]
    exact hs.disk_le t v h
  · rwa [saveCache_of_clean s (by simpa using hd)]

theorem Inv_putCache_of_miss (s : FS) (term definition : String) (hs : Inv s)
    (hc : dictLookup s.cache term = none) : Inv (putCache s term definition) := by
  refine ⟨?_, ?_, ?_⟩
  · simpa [putCache] using dictKeys_nodup_dictPut s.cache term definition hs.nodup
  · intro t v hv
    have ht : t ≠ term := by
      rintro rfl
      rw [hs.disk_le t v hv] at hc
      cases hc
    simpa [putCache, dictLookup_dictPut_ne _ _ _ _ ht] using hs.disk_le t v hv
  · intro hclean; simp [putCache] at hclean

theorem Inv_fetch (md : String → String) (s : FS) (term : String)
    (resp : String → Response) (now : Int) (hs : Inv s) :
    Inv (fetch md s term resp now).state := by
  cases hc : dictLookup s.cache term with
  | some raw => rw [fetch_hit md s term resp now raw hc]; exact hs
  | none =>
    cases hr : resp term with
    | failure text => rw [fetch_miss_fail md s term resp now text hc hr]; exact hs
    | success content =>
      rw [fetch_miss_ok md s term resp now content hc hr]
      have h1 : Inv (putCache s term (pyStrip content)) :=
        Inv_putCache_of_miss s term (pyStrip content) hs hc
      by_cases ht : now - s.lastSave > saveInterval
      · simp only [ht, if_true]
        have h2 := Inv_saveCache _ h1
        exact ⟨h2.nodup, h2.disk_le, fun hcl => h2.clean_eq hcl⟩
      · simpa [ht] using h1

theorem fetch_disk_mono (md : String → String) (s : FS) (term : String)
    (resp : String → Response) (now : Int) (hs : Inv s) (t v : String)
    (h : dictLookup (loadCache s.fileContent) t = some v) :
    dictLookup (loadCache (fetch md s term resp now).state.fileContent) t = some v := by
  cases hc : dictLookup s.cache term with
  | some raw => rwa [fetch_hit md s term resp now raw hc]
  | none =>
    cases hr : resp term with
    | failure text => rwa [fetch_miss_fail md s term resp now text hc hr]
    | success content =>
      rw [fetch_miss_ok md s term resp now content hc hr]
      by_cases ht : now - s.lastSave > saveInterval
      · simp only [ht, if_true]
        have h1 : Inv (putCache s term (pyStrip content)) :=
          Inv_putCache_of_miss s term (pyStrip content) hs hc
        have h2 : dictLookup (loadCache (putCache s term (pyStrip content)).fileContent) t
            = some v := by simpa [putCache] using h
        exact saveCache_disk_mono _ h1 t v h2
      · simpa [ht, putCache] using h

/- ### Lemmas about the fetch loop -/

theorem runFetchAll_cache_mono (md : String → String) (resp : String → Response)
    (terms : List String) :
    ∀ (s : FS) (times : Nat → Int) (k v : String),
      dictLookup s.cache k = some v →
      dictLookup (runFetchAll md resp s times terms).state.cache k = some v := by
  induction terms with
  | nil => intro s times k v h; simpa [runFetchAll] using h
  | cons t ts ih =>
    intro s times k v h
    have hf := fetch_cache_lookup_mono md s t resp (times 0) k v h
    cases ho : (fetch md s t resp (times 0)).outcome with
    | error e => simpa [runFetchAll, ho] using hf
    | ok val =>
      obtain ⟨defn, b⟩ := val
      simpa [runFetchAll, ho] using ih _ (fun i => times (i + 1)) k v hf

theorem Inv_runFetchAll (md : String → String) (resp : String → Response)
    (terms : List String) :
    ∀ (s : FS) (times : Nat → Int), Inv s →
      Inv (runFetchAll md resp s times terms).state := by
  induction terms with
  | nil => intro s times hs; simpa [runFetchAll] using hs
  | cons t ts ih =>
    intro s times hs
    have hf := Inv_fetch md s t resp (times 0) hs
    cases ho : (fetch md s t resp (times 0)).outcome with
    | error e => simpa [runFetchAll, ho] using hf
    | ok val =>
      obtain ⟨defn, b⟩ := val
      simpa [runFetchAll, ho] using ih _ (fun i => times (i + 1)) hf

theorem runFetchAll_disk_mono (md : String → String) (resp : String → Response)
    (terms : List String) :
    ∀ (s : FS) (times : Nat → Int), Inv s → ∀ (k v : String),
      dictLookup (loadCache s.fileContent) k = some v →
      dictLookup (loadCache (runFetchAll md resp s times terms).state.fileContent) k
        = some v := by
  induction terms with
  | nil => intro s times _ k v h; simpa [runFetchAll] using h
  | cons t ts ih =>
    intro s times hs k v h
    have hf := fetch_disk_mono md s t resp (times 0) hs k v h
    have hinv := Inv_fetch md s t resp (times 0) hs
    cases ho : (fetch md s t resp (times 0)).outcome with
    | error e => simpa [runFetchAll, ho] using hf
    | ok val =>
      obtain ⟨defn, b⟩ := val
      simpa [runFetchAll, ho] using ih _ (fun i => times (i + 1)) hinv k v hf

theorem runFetchAll_pairs_cached (md : String → String) (resp : String → Response)
    (terms : List String) :
    ∀ (s : FS) (times : Nat → Int) (t d : String),
      (t, d) ∈ (runFetchAll md resp s times terms).pairs →
      ∃ v, dictLookup (runFetchAll md resp s times terms).state.cache t = some v ∧
        d = md v := by
  induction terms with
  | nil => intro s times t d h; simp [runFetchAll] at h
  | cons t₀ ts ih =>
    intro s times t d h
    cases ho : (fetch md s t₀ resp (times 0)).outcome with
    | error e => simp [runFetchAll, ho] at h
    | ok val =>
      obtain ⟨defn, b⟩ := val
      simp only [runFetchAll, ho] at h ⊢
      rcases List.mem_cons.mp h with hhead | htail
      · have ht : t = t₀ := congrArg Prod.fst hhead
        have hdefn : d = defn := congrArg Prod.snd hhead
        subst ht; subst hdefn
        obtain ⟨v, hv, hd⟩ :=
          fetch_ok_lookup md s t resp (times 0) d b ho
        exact ⟨v, runFetchAll_cache_mono md resp ts _ (fun i => times (i + 1)) t v hv, hd⟩
      · exact ih _ (fun i => times (i + 1)) t d htail

theorem runFetchAll_map_fst (md : String → String) (resp : String → Response)
    (terms : List String) :
    ∀ (s : FS) (times : Nat → Int),
      (runFetchAll md resp s times terms).error = none →
      (runFetchAll md resp s times terms).pairs.map Prod.fst = terms := by
  induction terms with
  | nil => intro s times _; simp [runFetchAll]
  | cons t ts ih =>
    intro s times herr
    cases ho : (fetch md s t resp (times 0)).outcome with
    | error e => simp [runFetchAll, ho] at herr
    | ok val =>
      obtain ⟨defn, b⟩ := val
      simp only [runFetchAll, ho] at herr ⊢
      simpa using ih _ (fun i => times (i + 1)) herr

/- ### Lemmas about `close` -/

theorem close_cache (s : FS) : (close s).cache = s.cache := saveCache_cache s

theorem close_persists (s : FS) (hs : Inv s) (t v : String)
    (h : dictLookup s.cache t = some v) :
    dictLookup (loadCache (close s).fileContent) t = some v := by
  have := saveCache_disk_eq s hs t
  rw [saveCache_cache] at this
  rw [close, ← this]
  exact h

/- ### Concrete fixtures for witnesses and counterexamples -/

/-- A rendering function standing in for a concrete `markdown2.markdown`
configuration: the identity on the raw text. -/
def idMd : String → String := fun s => s

/-- A test endpoint answering every term with status 200 and a fixed
definition text. -/
def okOracle : String → Response := fun t => .success ("Definition of " ++ t)

/-- A test endpoint answering every term with a non-200 response. -/
def failOracle : String → Response := fun _ => .failure "boom"

/-- A test endpoint failing exactly on the term `"c"`. -/
def failCOracle : String → Response :=
  fun t => if t = "c" then .failure "boom" else .success ("Definition of " ++ t)

/- ### Claim C1 -/

/-- C1 (counterexample): flushing a dirty store with `_save_cache` does NOT
clear the dirty flag, and an immediately following flush with no intervening
put performs a second write to the backing file — refuting the claim that
the flag is cleared and the second flush writes nothing. -/
theorem c1_counterexample :
    (saveCache (putCache (initFetcher none 0) "a" "b")).dirty = true ∧
    (saveCache (saveCache (putCache (initFetcher none 0) "a" "b"))).writeCount = 2 := by
  decide

/-- C1 (amended): `_save_cache` on a dirty store writes the mapping to the
backing file but leaves the dirty flag set, so an immediately following
flush with no intervening put writes the same mapping again, leaving the
file content unchanged. -/
theorem c1_flush_keeps_dirty (s : FS) (h : s.dirty = true) :
    (saveCache s).fileContent = some (jsonDump s.cache) ∧
    (saveCache s).dirty = true ∧
    (saveCache (saveCache s)).writeCount = s.writeCount + 2 ∧
    (saveCache (saveCache s)).fileContent = (saveCache s).fileContent := by
  have hd : (saveCache s).dirty = true := by rw [saveCache_dirty]; exact h
  rw [saveCache_of_dirty (saveCache s) hd, saveCache_of_dirty s h]
  exact ⟨rfl, h, rfl, rfl⟩

/-- C1 witness: the amended claim evaluated on a one-entry dirty store. -/
theorem c1_flush_keeps_dirty_witness :
    (saveCache (putCache (initFetcher none 0) "a" "b")).fileContent
      = some (jsonDump (putCache (initFetcher none 0) "a" "b").cache) ∧
    (saveCache (putCache (initFetcher none 0) "a" "b")).dirty = true ∧
    (saveCache (saveCache (putCache (initFetcher none 0) "a" "b"))).writeCount
      = (putCache (initFetcher none 0) "a" "b").writeCount + 2 ∧
    (saveCache (saveCache (putCache (initFetcher none 0) "a" "b"))).fileContent
      = (saveCache (putCache (initFetcher none 0) "a" "b")).fileContent :=
  c1_flush_keeps_dirty (putCache (initFetcher none 0) "a" "b") (by decide)

/- ### Claim C5 -/

/-- C5: a flush right after `__init__`'s load, with no intervening put,
changes nothing (no write, file untouched); after a put the store is dirty,
stays dirty through flushes and fetches (the flag is never cleared), and a
flush of the dirty store always writes the whole mapping to the file. -/
theorem c5_dirty_flush_gating (file : Option (List Entry)) (now0 : Int)
    (s : FS) (k v : String) (md : String → String) (term : String)
    (resp : String → Response) (now : Int) :
    saveCache (initFetcher file now0) = initFetcher file now0 ∧
    (putCache s k v).dirty = true ∧
    (saveCache (putCache s k v)).writeCount = s.writeCount + 1 ∧
    (saveCache (putCache s k v)).fileContent = some (jsonDump (dictPut s.cache k v)) ∧
    (saveCache (putCache s k v)).dirty = true ∧
    (fetch md (putCache s k v) term resp now).state.dirty = true := by
  refine ⟨saveCache_of_clean _ rfl, rfl, ?_, ?_, ?_, ?_⟩
  · simp [saveCache, putCache]
  · simp [saveCache, putCache]
  · simp [saveCache_dirty, putCache]
  · exact fetch_dirty_mono md _ term resp now rfl

/- ### Claim C6 -/

/-- C6: flushing a dirty in-memory mapping with unique keys to the backing
file and reloading that file reproduces the mapping exactly: same key
sequence and the same value at every key. -/
theorem c6_round_trip (s : FS) (hdirty : s.dirty = true)
    (hnodup : (dictKeys s.cache).Nodup) :
    dictKeys (loadCache (saveCache s).fileContent) = dictKeys s.cache ∧
    ∀ k, dictLookup (loadCache (saveCache s).fileContent) k = dictLookup s.cache k := by
  have h := loadCache_saveCache_dirty s hnodup hdirty
  exact ⟨by rw [h], fun k => by rw [h]⟩

/-- C6 witness: the round trip evaluated on a two-entry dirty store. -/
theorem c6_round_trip_witness :
    dictKeys (loadCache (saveCache (putCache (putCache (initFetcher none 0) "a" "x") "b" "y")).fileContent)
      = dictKeys (putCache (putCache (initFetcher none 0) "a" "x") "b" "y").cache ∧
    ∀ k, dictLookup (loadCache (saveCache (putCache (putCache (initFetcher none 0) "a" "x") "b" "y")).fileContent) k
      = dictLookup (putCache (putCache (initFetcher none 0) "a" "x") "b" "y").cache k :=
  c6_round_trip (putCache (putCache (initFetcher none 0) "a" "x") "b" "y")
    (by decide) (by decide)

/- ### Claim C8 -/

/-- C8 (counterexample): a cache miss whose successful response arrives with
exactly 15 time units elapsed since the last save leaves the backing file
untouched — the store is dirty and "at least 15 units" have elapsed, yet no
write happens, because the code requires strictly more than 15. -/
theorem c8_counterexample :
    (fetch idMd (initFetcher none 0) "t" okOracle 15).state.dirty = true ∧
    (15 : Int) - (initFetcher none 0).lastSave ≥ saveInterval ∧
    (fetch idMd (initFetcher none 0) "t" okOracle 15).state.writeCount = 0 ∧
    (fetch idMd (initFetcher none 0) "t" okOracle 15).state.fileContent
      = (initFetcher none 0).fileContent := by
  decide

/-- C8 (amended): the opportunistic flush inside `fetch` after a cache miss
writes the cache to the backing file if and only if the store is dirty and
STRICTLY MORE than 15 time units have elapsed since the last save timestamp;
otherwise the file is left untouched and the write is deferred. -/
theorem c8_opportunistic_flush (md : String → String) (s : FS) (term : String)
    (resp : String → Response) (now : Int) (content : String)
    (hmiss : dictLookup s.cache term = none)
    (hok : resp term = .success content) :
    ((fetch md s term resp now).state.writeCount = s.writeCount + 1 ↔
      ((fetch md s term resp now).state.dirty = true ∧
        now - s.lastSave > saveInterval)) ∧
    (¬ now - s.lastSave > saveInterval →
      (fetch md s term resp now).state.fileContent = s.fileContent ∧
      (fetch md s term resp now).state.writeCount = s.writeCount) := by
  rw [fetch_miss_ok md s term resp now content hmiss hok]
  by_cases ht : now - s.lastSave > saveInterval
  · simp [ht, saveCache, putCache]
  · simp [ht, putCache]

/-- C8 witness: the amended claim evaluated on a fresh store fetching a new
term 16 time units after construction (a write happens). -/
theorem c8_opportunistic_flush_witness :
    ((fetch idMd (initFetcher none 0) "t" okOracle 16).state.writeCount
        = (initFetcher none 0).writeCount + 1 ↔
      ((fetch idMd (initFetcher none 0) "t" okOracle 16).state.dirty = true ∧
        (16 : Int) - (initFetcher none 0).lastSave > saveInterval)) ∧
    (¬ (16 : Int) - (initFetcher none 0).lastSave > saveInterval →
      (fetch idMd (initFetcher none 0) "t" okOracle 16).state.fileContent
        = (initFetcher none 0).fileContent ∧
      (fetch idMd (initFetcher none 0) "t" okOracle 16).state.writeCount
        = (initFetcher none 0).writeCount) :=
  c8_opportunistic_flush idMd (initFetcher none 0) "t" okOracle 16
    "Definition of t" (by decide) (by decide)

/- ### Claim C9 -/

/-- The claim's reading of `load_terms`, stated from the spec's words: keep
the non-blank lines exactly as given (case- and whitespace-sensitive), in
file order. For comparison with the implementation's `load_terms`. -/
def loadTermsAsGiven (lines : List String) : List String :=
  lines.filter (fun line => pyStrip line != "")

/-- C9 (counterexample): `load_terms` strips leading/trailing whitespace
from each kept line, so a line `" foo"` is returned as `"foo"`, not as
given — refuting whitespace preservation. -/
theorem c9_counterexample :
    load_terms [" foo"] = ["foo"] ∧
    loadTermsAsGiven [" foo"] = [" foo"] ∧
    load_terms [" foo"] ≠ loadTermsAsGiven [" foo"] := by
  decide

/-- C9 (amended): loading the terms file returns, in file order, the
STRIPPED form of each line that is non-blank after stripping; blank
(whitespace-only) lines are dropped. -/
theorem c9_load_terms_strips (lines : List String) :
    load_terms lines = (lines.filter (fun line => pyStrip line != "")).map pyStrip := by
  induction lines with
  | nil => rfl
  | cons l ls ih =>
    by_cases h : pyStrip l = ""
    · simp [load_terms, List.filterMap_cons, List.filter_cons, h] at ih ⊢
      exact ih
    · simp [load_terms, List.filterMap_cons, List.filter_cons, h] at ih ⊢
      exact ih

/- ### Claim C10 -/

/-- C10: on a cache miss whose response is non-success, `fetch` raises a
Fetch Error carrying the endpoint's error payload and leaves the fetcher's
state — cache mapping, dirty flag, last-save timestamp — exactly as it was
before the call. -/
theorem c10_error_atomicity (md : String → String) (s : FS) (term : String)
    (resp : String → Response) (now : Int) (text : String)
    (hmiss : dictLookup s.cache term = none)
    (hfail : resp term = .failure text) :
    (fetch md s term resp now).outcome
      = .error ("Error fetching definition for " ++ term ++ ": " ++ text) ∧
    (fetch md s term resp now).state = s ∧
    (fetch md s term resp now).state.cache = s.cache ∧
    (fetch md s term resp now).state.dirty = s.dirty ∧
    (fetch md s term resp now).state.lastSave = s.lastSave := by
  rw [fetch_miss_fail md s term resp now text hmiss hfail]
  exact ⟨rfl, rfl, rfl, rfl, rfl⟩

/-- C10 witness: the error-atomicity theorem evaluated on a fresh store with
an always-failing endpoint. -/
theorem c10_error_atomicity_witness :
    (fetch idMd (initFetcher none 0) "t" failOracle 0).outcome
      = .error ("Error fetching definition for " ++ "t" ++ ": " ++ "boom") ∧
    (fetch idMd (initFetcher none 0) "t" failOracle 0).state = initFetcher none 0 ∧
    (fetch idMd (initFetcher none 0) "t" failOracle 0).state.cache
      = (initFetcher none 0).cache ∧
    (fetch idMd (initFetcher none 0) "t" failOracle 0).state.dirty
      = (initFetcher none 0).dirty ∧
    (fetch idMd (initFetcher none 0) "t" failOracle 0).state.lastSave
      = (initFetcher none 0).lastSave :=
  c10_error_atomicity idMd (initFetcher none 0) "t" failOracle 0 "boom"
    (by decide) (by decide)

/- ### Claim C2 -/

/-- C2 (counterexample): a term already present in the cache loaded from the
backing file is served from memory on BOTH calls — fetching it twice within
one run issues zero remote requests, not exactly one. -/
theorem c2_counterexample :
    (fetch idMd (initFetcher (some [("t", "v")]) 0) "t" failOracle 0).requested = false ∧
    (fetch idMd (fetch idMd (initFetcher (some [("t", "v")]) 0) "t" failOracle 0).state
      "t" failOracle 1).requested = false := by
  decide

/-- C2 (amended): fetching the same term twice in one run issues at most one
remote request — exactly one when the term is not cached before the first
call: the first (successful) call issues the request, and the second call
finds the term in the in-memory cache, makes no network call, re-renders
the stored raw text to markup, and returns the pair (markup, true), leaving
the state unchanged. -/
theorem c2_cache_idempotence (md : String → String) (s : FS) (term : String)
    (resp : String → Response) (now now' : Int) (d : String) (b : Bool)
    (hmiss : dictLookup s.cache term = none)
    (hok : (fetch md s term resp now).outcome = .ok (d, b)) :
    (fetch md s term resp now).requested = true ∧
    ∃ raw, dictLookup (fetch md s term resp now).state.cache term = some raw ∧
      fetch md (fetch md s term resp now).state term resp now' =
        { state := (fetch md s term resp now).state
          outcome := .ok (md raw, true)
          requested := false } := by
  obtain ⟨raw, hraw, _⟩ := fetch_ok_lookup md s term resp now d b hok
  refine ⟨?_, raw, hraw, fetch_hit md _ term resp now' raw hraw⟩
  cases hr : resp term with
  | failure text =>
    rw [fetch_miss_fail md s term resp now text hmiss hr] at hok
    simp at hok
  | success content =>
    rw [fetch_miss_ok md s term resp now content hmiss hr]

/-- C2 witness: the amended claim evaluated on a fresh store: the first
fetch of "t" issues the request, the second is a cache hit. -/
theorem c2_cache_idempotence_witness :
    (fetch idMd (initFetcher none 0) "t" okOracle 0).requested = true ∧
    ∃ raw, dictLookup (fetch idMd (initFetcher none 0) "t" okOracle 0).state.cache "t"
        = some raw ∧
      fetch idMd (fetch idMd (initFetcher none 0) "t" okOracle 0).state "t" okOracle 1 =
        { state := (fetch idMd (initFetcher none 0) "t" okOracle 0).state
          outcome := .ok (idMd raw, true)
          requested := false } :=
  c2_cache_idempotence idMd (initFetcher none 0) "t" okOracle 0 1
    "Definition of t" false (by decide) (by decide)

/- ### Claim C3 -/

/-- C3: if a scoped run raises a Fetch Error partway through, the scope exit
still closes the fetcher, flushing the cache, so every definition
successfully fetched before the failure is persisted in the backing file;
the error propagates unchanged out of the scope (no sink call is made and
the fetch loop's error is surfaced as-is). -/
theorem c3_scoped_release (md : String → String) (resp : String → Response)
    (file : Option (List Entry)) (now0 : Int) (terms : List String)
    (times : Nat → Int) (e : String)
    (herr : (runScoped md resp file now0 terms times).error = some e) :
    (runScoped md resp file now0 terms times).error
      = (runFetchAll md resp (initFetcher file now0) times terms).error ∧
    (runScoped md resp file now0 terms times).sinkCalls = [] ∧
    ∀ t d, (t, d) ∈ (runScoped md resp file now0 terms times).fetched →
      ∃ v, dictLookup (runScoped md resp file now0 terms times).state.cache t = some v ∧
        dictLookup
          (loadCache (runScoped md resp file now0 terms times).state.fileContent) t
          = some v ∧
        d = md v := by
  have hinv : Inv (runFetchAll md resp (initFetcher file now0) times terms).state :=
    Inv_runFetchAll md resp terms (initFetcher file now0) times (Inv_init file now0)
  have herr' : (runFetchAll md resp (initFetcher file now0) times terms).error = some e := by
    simpa [runScoped, generateOutput] using herr
  refine ⟨by simp [runScoped, generateOutput], by simp [runScoped, generateOutput, herr'], ?_⟩
  intro t d hmem
  have hmem' : (t, d) ∈ (runFetchAll md resp (initFetcher file now0) times terms).pairs := by
    simpa [runScoped, generateOutput] using hmem
  obtain ⟨v, hv, hd⟩ :=
    runFetchAll_pairs_cached md resp terms (initFetcher file now0) times t d hmem'
  have hstate : (runScoped md resp file now0 terms times).state
      = close (runFetchAll md resp (initFetcher file now0) times terms).state := by
    simp [runScoped, generateOutput]
  refine ⟨v, ?_, ?_, hd⟩
  · rw [hstate, close_cache]; exact hv
  · rw [hstate]; exact close_persists _ hinv t v hv

/-- C3 witness: a five-term run whose third term fails; the two definitions
fetched before the failure are persisted by the scope exit. -/
theorem c3_scoped_release_witness :
    (runScoped idMd failCOracle none 0 ["a", "b", "c", "d", "e"] (fun _ => 0)).error
      = (runFetchAll idMd failCOracle (initFetcher none 0) (fun _ => 0)
          ["a", "b", "c", "d", "e"]).error ∧
    (runScoped idMd failCOracle none 0 ["a", "b", "c", "d", "e"] (fun _ => 0)).sinkCalls
      = [] ∧
    ∀ t d,
      (t, d) ∈ (runScoped idMd failCOracle none 0 ["a", "b", "c", "d", "e"]
        (fun _ => 0)).fetched →
      ∃ v,
        dictLookup (runScoped idMd failCOracle none 0 ["a", "b", "c", "d", "e"]
          (fun _ => 0)).state.cache t = some v ∧
        dictLookup (loadCache (runScoped idMd failCOracle none 0 ["a", "b", "c", "d", "e"]
          (fun _ => 0)).state.fileContent) t = some v ∧
        d = idMd v :=
  c3_scoped_release idMd failCOracle none 0 ["a", "b", "c", "d", "e"] (fun _ => 0)
    ("Error fetching definition for " ++ "c" ++ ": " ++ "boom") (by decide)

/- ### Claim C4 -/

/-- C4: a `generate_output` run that completes without error invokes the
Output Sink exactly once, with a sequence of (term, definition) pairs whose
term column is exactly the input sequence (same length, same order,
duplicates included), and any two pairs carrying the same term carry the
same definition. -/
theorem c4_order_preservation (md : String → String) (resp : String → Response)
    (s : FS) (terms : List String) (times : Nat → Int)
    (herr : (generateOutput md resp s terms times).error = none) :
    (generateOutput md resp s terms times).sinkCalls
      = [(generateOutput md resp s terms times).fetched] ∧
    (generateOutput md resp s terms times).fetched.map Prod.fst = terms ∧
    (generateOutput md resp s terms times).fetched.length = terms.length ∧
    ∀ p q, p ∈ (generateOutput md resp s terms times).fetched →
      q ∈ (generateOutput md resp s terms times).fetched → p.1 = q.1 → p.2 = q.2 := by
  have herr' : (runFetchAll md resp s times terms).error = none := by
    simpa [generateOutput] using herr
  have hfst : (runFetchAll md resp s times terms).pairs.map Prod.fst = terms :=
    runFetchAll_map_fst md resp terms s times herr'
  have hfetched : (generateOutput md resp s terms times).fetched
      = (runFetchAll md resp s times terms).pairs := by
    simp [generateOutput]
  refine ⟨by simp [generateOutput, herr'], by rw [hfetched]; exact hfst, ?_, ?_⟩
  · rw [hfetched]
    calc (runFetchAll md resp s times terms).pairs.length
        = ((runFetchAll md resp s times terms).pairs.map Prod.fst).length :=
          (List.length_map _ _).symm
      _ = terms.length := by rw [hfst]
  · intro p q hp hq hpq
    rw [hfetched] at hp hq
    obtain ⟨t₁, d₁⟩ := p
    obtain ⟨t₂, d₂⟩ := q
    simp only at hpq
    subst hpq
    obtain ⟨v₁, hv₁, hd₁⟩ :=
      runFetchAll_pairs_cached md resp terms s times t₁ d₁ hp
    obtain ⟨v₂, hv₂, hd₂⟩ :=
      runFetchAll_pairs_cached md resp terms s times t₁ d₂ hq
    rw [hv₁] at hv₂
    obtain rfl : v₁ = v₂ := Option.some.injEq .. ▸ hv₂.symm ▸ rfl
    simp [hd₁, hd₂]

/-- C4 witness: the pipeline on input terms [A, B, A, C] with a fresh store;
the duplicate A resolves identically both times and the sink receives the
full four-pair sequence once. -/
theorem c4_order_preservation_witness :
    (generateOutput idMd okOracle (initFetcher none 0) ["A", "B", "A", "C"]
        (fun _ => 0)).sinkCalls
      = [(generateOutput idMd okOracle (initFetcher none 0) ["A", "B", "A", "C"]
          (fun _ => 0)).fetched] ∧
    (generateOutput idMd okOracle (initFetcher none 0) ["A", "B", "A", "C"]
        (fun _ => 0)).fetched.map Prod.fst = ["A", "B", "A", "C"] ∧
    (generateOutput idMd okOracle (initFetcher none 0) ["A", "B", "A", "C"]
        (fun _ => 0)).fetched.length = (["A", "B", "A", "C"] : List String).length ∧
    ∀ p q,
      p ∈ (generateOutput idMd okOracle (initFetcher none 0) ["A", "B", "A", "C"]
        (fun _ => 0)).fetched →
      q ∈ (generateOutput idMd okOracle (initFetcher none 0) ["A", "B", "A", "C"]
        (fun _ => 0)).fetched → p.1 = q.1 → p.2 = q.2 :=
  c4_order_preservation idMd okOracle (initFetcher none 0) ["A", "B", "A", "C"]
    (fun _ => 0) (by decide)

/- ### Claim C7 -/

/-- One fetcher operation during its lifetime: a `fetch` call (hit, miss, or
failure) or a `close`/`_save_cache` flush. -/
inductive Step : FS → FS → Prop where
  | fetchStep (md : String → String) (term : String) (resp : String → Response)
      (now : Int) (s : FS) : Step s (fetch md s term resp now).state
  | closeStep (s : FS) : Step s (close s)

/-- States a fetcher can be in: freshly constructed, or reached by an
operation from a reachable state. -/
inductive Reachable : FS → Prop where
  | init (file : Option (List Entry)) (now : Int) : Reachable (initFetcher file now)
  | step {s s' : FS} : Reachable s → Step s s' → Reachable s'

theorem Inv_of_step {s s' : FS} (hs : Inv s) (hstep : Step s s') : Inv s' := by
  cases hstep with
  | fetchStep md term resp now s => exact Inv_fetch md s term resp now hs
  | closeStep s => exact Inv_saveCache s hs

theorem Reachable_Inv {s : FS} (hs : Reachable s) : Inv s := by
  induction hs with
  | init file now => exact Inv_init file now
  | step _ hstep ih => exact Inv_of_step ih hstep

theorem step_mono {s s' : FS} (hs : Inv s) (hstep : Step s s') :
    (∀ t v, dictLookup s.cache t = some v → dictLookup s'.cache t = some v) ∧
    (∀ t v, dictLookup (loadCache s.fileContent) t = some v →
      dictLookup (loadCache s'.fileContent) t = some v) := by
  cases hstep with
  | fetchStep md term resp now s =>
    exact ⟨fun t v h => fetch_cache_lookup_mono md s term resp now t v h,
      fun t v h => fetch_disk_mono md s term resp now hs t v h⟩
  | closeStep s =>
    refine ⟨fun t v h => ?_, fun t v h => saveCache_disk_mono s hs t v h⟩
    rw [close_cache]; exact h

/-- C7: at every reachable state of a fetcher's lifetime, the in-memory
mapping contains the mapping stored in the backing file; a flush
(`_save_cache`) makes the two mappings equal at every key; and no operation
removes an entry from either the in-memory mapping or the file. -/
theorem c7_cache_invariant (s : FS) (hs : Reachable s) :
    (∀ t v, dictLookup (loadCache s.fileContent) t = some v →
      dictLookup s.cache t = some v) ∧
    (∀ t, dictLookup (saveCache s).cache t
      = dictLookup (loadCache (saveCache s).fileContent) t) ∧
    (∀ s', Step s s' →
      (∀ t v, dictLookup s.cache t = some v → dictLookup s'.cache t = some v) ∧
      (∀ t v, dictLookup (loadCache s.fileContent) t = some v →
        dictLookup (loadCache s'.fileContent) t = some v)) := by
  have hinv := Reachable_Inv hs
  exact ⟨hinv.disk_le, saveCache_disk_eq s hinv, fun s' hstep => step_mono hinv hstep⟩

/-- C7 witness: the invariant instantiated at a freshly constructed fetcher
with a one-entry backing file. -/
theorem c7_cache_invariant_witness :
    (∀ t v,
      dictLookup (loadCache (initFetcher (some [("a", "x")]) 0).fileContent) t = some v →
      dictLookup (initFetcher (some [("a", "x")]) 0).cache t = some v) ∧
    (∀ t, dictLookup (saveCache (initFetcher (some [("a", "x")]) 0)).cache t
      = dictLookup (loadCache (saveCache (initFetcher (some [("a", "x")]) 0)).fileContent) t) ∧
    (∀ s', Step (initFetcher (some [("a", "x")]) 0) s' →
      (∀ t v, dictLookup (initFetcher (some [("a", "x")]) 0).cache t = some v →
        dictLookup s'.cache t = some v) ∧
      (∀ t v,
        dictLookup (loadCache (initFetcher (some [("a", "x")]) 0).fileContent) t = some v →
        dictLookup (loadCache s'.fileContent) t = some v)) :=
  c7_cache_invariant (initFetcher (some [("a", "x")]) 0)
    (Reachable.init (some [("a", "x")]) 0)

end AnkiDecker
